import Mathlib

/-!
Verification development for the dfcompu dataflow computation engine
(src/dfcompu.py).  The Python source is shallowly embedded: Python values
become the inductive `PyVal`, raised exceptions become the inductive
`PyErr` carried in `Except`, mutable objects become explicit state records
that functions thread through.  Each definition mirrors one Python
function or method of src/dfcompu.py; the few definitions whose doc
comment starts with "Modelled from the spec:" embed behavior exercised by
src/dfcompu_test.py whose implementation is not part of src/dfcompu.py.
-/

/-- Python exception classes raised by dfcompu, with their message. -/
inductive PyErr where
  | runtimeError (msg : String)
  | valueError (msg : String)
  | typeError (msg : String)
  | keyError (key : String)
  | indexError (msg : String)
  deriving Repr, DecidableEq

/-- Whether an exception is a RuntimeError (used to state error-class claims). -/
def PyErr.isRuntimeError : PyErr → Bool
  | .runtimeError _ => true
  | _ => false

/-- Python values that flow through the engine.  `tuple` and `list` are kept
apart because `Node.set_result` checks `isinstance(result, (tuple, list))`;
named tuples produced by `result_tuple_type` are represented as `tuple`.
`dict` represents a context dictionary. -/
inductive PyVal where
  | nonePy
  | int (n : Int)
  | str (s : String)
  | bool (b : Bool)
  | tuple (items : List PyVal)
  | list (items : List PyVal)
  | dict (entries : List (String × PyVal))
  deriving Repr, Inhabited

/-- `isinstance(result, (tuple, list))`, the check of `Node.set_result`. -/
def PyVal.isTupleOrList : PyVal → Bool
  | .tuple _ => true
  | .list _ => true
  | _ => false

/-- A run context dict.  Python compares dicts by object identity
(`self.context is context`), embedded as the `tag`; `entries` is the dict's
content. -/
structure Ctx where
  tag : Nat
  entries : List (String × PyVal)
  deriving Repr

/-- One member of an `InputSequence`.  `yield_inputs` and
`convert_function_to_generator` only ever ask whether a member
`isinstance(input2, Input)` and, if so, which kind of `Input` it is, so the
members are embedded one level deep (the source never recurses further). -/
inductive SeqEntry where
  | ctxEntry (key : Option String) (context : Option Ctx)
  | constEntry (v : PyVal)
  | nodeEntry (id : Nat)
  | plainEntry (v : PyVal)
  deriving Repr

/-- `isinstance(input2, Input)` for a sequence member. -/
def SeqEntry.isInput : SeqEntry → Bool
  | .plainEntry _ => false
  | _ => true

/-- The `Input` variants of src/dfcompu.py as seen by the wiring code:
`ConstantInput` over an ordinary value, `ConstantInput` wrapping an
`InputSequence`, `ContextInput` (key plus the dict bound by `set_context`,
`none` while unbound), and a `Node` reference. -/
inductive GInput where
  | constantI (v : PyVal)
  | constSeqI (items : List SeqEntry)
  | ctxI (key : Option String) (context : Option Ctx)
  | nodeI (id : Nat)
  deriving Repr

/-- `ContextInput.get`: raises `ValueError('Context not set in get.')` while
unbound; with a null key returns the whole context dict; otherwise indexes
the dict (raising `KeyError` for a missing key), as in src/dfcompu.py. -/
def ctxGet (key : Option String) (context : Option Ctx) : Except PyErr PyVal :=
  match context with
  | none => .error (.valueError "Context not set in get.")
  | some c =>
    match key with
    | none => .ok (.dict c.entries)
    | some k =>
      match c.entries.lookup k with
      | some v => .ok v
      | none => .error (.keyError k)

/-- `ContextInput.set_context`: a no-op when the same dict is already bound,
`RuntimeError('Context already set.')` when a different dict is bound. -/
def ctxSetContext (key : Option String) (old : Option Ctx) (context : Ctx) :
    Except PyErr GInput :=
  match old with
  | some c => if c.tag = context.tag then .ok (.ctxI key (some c))
              else .error (.runtimeError "Context already set.")
  | none => .ok (.ctxI key (some context))

/-- The mutable state of a `Node` of src/dfcompu.py: the recipe's result
names, the `has_result` flag, the `result` slot (initialized to Python
`None`), the inputs list, the `node_iterator` reference (an identifier,
`none` once replaced with Python `None`), and the display `name`. -/
structure NodeSt where
  resultNames : List String
  hasResult : Bool
  result : PyVal
  inputs : List GInput
  nodeIterator : Option Nat
  name : String
  deriving Repr

/-- `Recipe.__init__` leaves `result_tuple_type` as `None` exactly when there
is one result name and it is `'result'`. -/
def hasResultTupleType (resultNames : List String) : Bool :=
  decide (resultNames.length ≠ 1) || decide (resultNames.headD "" ≠ "result")

/-- The message of the arity-mismatch `ValueError` of `Node.set_result`. -/
def sizeMismatchMsg (expected got : Nat) : String :=
  "Result tuple size mismatch: expected=" ++ toString expected ++
    ", got=" ++ toString got

/-- `Node.set_result`: raises `RuntimeError` on a second set; for a recipe
with a `result_tuple_type` it requires a tuple or list of the declared
arity (raising `ValueError` otherwise) and wraps it with the named-tuple
constructor; finally fills the slot and replaces `node_iterator` with
`None`. -/
def setResult (n : NodeSt) (result : PyVal) : Except PyErr NodeSt :=
  if n.hasResult then
    .error (.runtimeError "Setting result multiple times.")
  else if hasResultTupleType n.resultNames then
    match result with
    | .tuple items =>
      if items.length ≠ n.resultNames.length then
        .error (.valueError (sizeMismatchMsg n.resultNames.length items.length))
      else
        .ok { n with hasResult := true, result := .tuple items,
                     nodeIterator := none }
    | .list items =>
      if items.length ≠ n.resultNames.length then
        .error (.valueError (sizeMismatchMsg n.resultNames.length items.length))
      else
        .ok { n with hasResult := true, result := .tuple items,
                     nodeIterator := none }
    | _ => .error (.valueError "tuple result expected.")
  else
    .ok { n with hasResult := true, result := result, nodeIterator := none }

/-- `Node.get`: `RuntimeError('Node result not available yet.')` while the
slot is empty, else the stored result. -/
def nodeGet (n : NodeSt) : Except PyErr PyVal :=
  if n.hasResult then .ok n.result
  else .error (.runtimeError "Node result not available yet.")

/-- `Node.is_available`. -/
def nodeIsAvailable (n : NodeSt) : Bool :=
  n.hasResult

/-- `Node.wait`: `EMPTY_WAIT` when available, else a `Wait` token naming this
node.  The token's inputs are returned as the list of nodes it carries. -/
def nodeWait (n : NodeSt) : List NodeSt :=
  if n.hasResult then [] else [n]

/-- One value yielded by a recipe body, as classified by
`wrap_node_iterator`: a `Wait` object carrying input references, an `Input`
terminal (recorded with the inputs of its `wait()` token and the outcome of
its `get()`), or a plain terminal value. -/
inductive AdapterYield where
  | waitY (ws : List Nat)
  | inputY (ws : List Nat) (got : Except PyErr PyVal)
  | plainY (v : PyVal)
  deriving Repr

/-- How a recipe body's iteration ends after its recorded yields: normal
exhaustion (`StopIteration`) or an exception raised inside the body. -/
inductive BodyEnding where
  | normal
  | raised (e : PyErr)
  deriving Repr

/-- The observable behavior of one recipe body: the values it yields in
order, then how it ends. -/
structure BodyTrace where
  yields : List AdapterYield
  ending : BodyEnding
  deriving Repr

/-- The loop of `wrap_node_iterator` in `Node.__init__`: for each yielded
value, first fail with `RuntimeError('Multiple values yielded by recipe
iterator.')` if the node already has a result; a `Wait` re-yields its
inputs; an `Input` yields its wait inputs and then sets the result to its
`get()`; a plain value sets the result.  An exception raised by the body
(the `BodyEnding.raised` case) propagates uncaught — nothing is stored in
the result slot.  On normal exhaustion without a result it fails with
`RuntimeError('No values yielded by recipe iterator.')`.  Returns the node
state alongside the wait lists yielded to the runner. -/
def wrapGo (n : NodeSt) (ys : List AdapterYield) (ending : BodyEnding)
    (acc : List (List Nat)) : NodeSt × Except PyErr (List (List Nat)) :=
  match ys with
  | [] =>
    match ending with
    | .raised e => (n, .error e)
    | .normal =>
      if n.hasResult then (n, .ok acc.reverse)
      else (n, .error (.runtimeError "No values yielded by recipe iterator."))
  | y :: rest =>
    if n.hasResult then
      (n, .error (.runtimeError "Multiple values yielded by recipe iterator."))
    else
      match y with
      | .waitY ws => wrapGo n rest ending (ws :: acc)
      | .inputY ws got =>
        match got with
        | .error ge => (n, .error ge)
        | .ok v =>
          match setResult n v with
          | .error se => (n, .error se)
          | .ok n2 => wrapGo n2 rest ending (ws :: acc)
      | .plainY v =>
        match setResult n v with
        | .error se => (n, .error se)
        | .ok n2 => wrapGo n2 rest ending acc

/-- Driving a node's `wrap_node_iterator` over a whole body trace. -/
def wrapRun (n : NodeSt) (t : BodyTrace) : NodeSt × Except PyErr (List (List Nat)) :=
  wrapGo n t.yields t.ending []

/-- A fresh single-result node as built by `Node.__init__` for a recipe with
the default `result=('result',)`: empty slot, live iterator. -/
def freshNode (name : String) (inputs : List GInput) : NodeSt :=
  { resultNames := ["result"], hasResult := false, result := .nonePy,
    inputs := inputs, nodeIterator := some 0, name := name }

/-- Helper: a successful `set_result` starts from an empty slot, fills it,
and replaces the iterator reference with null. -/
lemma setResult_ok_spec {n n2 : NodeSt} {v : PyVal}
    (h : setResult n v = .ok n2) :
    n.hasResult = false ∧ n2.hasResult = true ∧ n2.nodeIterator = none := by
  have hr : n.hasResult = false := by
    by_contra hc
    rw [Bool.not_eq_false] at hc
    simp [setResult, hc] at h
  refine ⟨hr, ?_⟩
  simp only [setResult, hr, Bool.false_eq_true, if_false] at h
  split at h
  · split at h
    · split at h
      · exact absurd h (by simp)
      · injection h with h2
        subst h2
        exact ⟨rfl, rfl⟩
    · split at h
      · exact absurd h (by simp)
      · injection h with h2
        subst h2
        exact ⟨rfl, rfl⟩
    · exact absurd h (by simp)
  · injection h with h2
    subst h2
    exact ⟨rfl, rfl⟩

/-- Helper: a node whose slot is already full fails a second `set_result`
with the `RuntimeError` of the source. -/
lemma setResult_full {n : NodeSt} (v : PyVal) (h : n.hasResult = true) :
    setResult n v = .error (.runtimeError "Setting result multiple times.") := by
  simp [setResult, h]

/-- Helper: the adapter loop on a run of pure `Wait` yields never touches the
node and, on normal exhaustion with an empty slot, raises the no-values
`RuntimeError`. -/
lemma wrapGo_waits {n : NodeSt} (hr : n.hasResult = false) :
    ∀ (wss : List (List Nat)) (acc : List (List Nat)),
      wrapGo n (wss.map .waitY) .normal acc =
        (n, .error (.runtimeError "No values yielded by recipe iterator.")) := by
  intro wss
  induction wss with
  | nil => intro acc; simp [wrapGo, hr]
  | cons w rest ih => intro acc; simpa [wrapGo, hr] using ih (w :: acc)

/-- C7: for every node, the result slot goes from empty to filled at most
once — `set_result` on a filled node raises `RuntimeError('Setting result
multiple times.')` and a successful `set_result` starts from an empty slot;
`is_available()` returns exactly the slot-filled flag; and once the slot is
filled the node's iterator reference is replaced with null. -/
theorem c7_result_slot_once_set :
    ∀ (n : NodeSt) (v : PyVal),
      (n.hasResult = true →
        setResult n v = .error (.runtimeError "Setting result multiple times.")) ∧
      (∀ n2, setResult n v = .ok n2 →
        n.hasResult = false ∧ n2.hasResult = true ∧ n2.nodeIterator = none ∧
          nodeIsAvailable n2 = true) ∧
      (nodeIsAvailable n = n.hasResult) := by
  intro n v
  refine ⟨fun h => setResult_full v h, fun n2 h => ?_, rfl⟩
  obtain ⟨h1, h2, h3⟩ := setResult_ok_spec h
  exact ⟨h1, h2, h3, h2⟩

/-- The node of the `area` recipe after its result 35 has been set. -/
def filledAreaNode : NodeSt :=
  { resultNames := ["result"], hasResult := true, result := .int 35,
    inputs := [], nodeIterator := none, name := "area" }

/-- Witness for C7 at concrete inputs: a fresh node accepts one result and
then refuses a second one. -/
theorem c7_result_slot_once_set_witness :
    (nodeIsAvailable (freshNode "area" []) = (freshNode "area" []).hasResult) ∧
    ((freshNode "area" []).hasResult = false ∧ filledAreaNode.hasResult = true ∧
      filledAreaNode.nodeIterator = none ∧
      nodeIsAvailable filledAreaNode = true) ∧
    (setResult filledAreaNode (.int 0) =
      .error (.runtimeError "Setting result multiple times.")) := by
  refine ⟨(c7_result_slot_once_set (freshNode "area" []) (.int 35)).2.2,
    (c7_result_slot_once_set (freshNode "area" []) (.int 35)).2.1 _ rfl,
    (c7_result_slot_once_set filledAreaNode (.int 0)).1 rfl⟩

/-- C6: the node iterator delivers exactly one terminal value.  Yielding any
further value once the result slot is filled — whether the slot was filled
by a prior terminal of this body or already full when the body yields —
raises `RuntimeError('Multiple values yielded by recipe iterator.')`, and
exhausting the body (any run of pure `Wait` yields) without the slot ever
being filled raises `RuntimeError('No values yielded by recipe
iterator.')`. -/
theorem c6_exactly_one_terminal_value :
    ∀ (n n2 : NodeSt) (v : PyVal) (y : AdapterYield) (rest : List AdapterYield)
      (ending : BodyEnding) (wss : List (List Nat)),
      (n.hasResult = false → setResult n v = .ok n2 →
        wrapRun n ⟨.plainY v :: y :: rest, ending⟩ =
          (n2, .error (.runtimeError "Multiple values yielded by recipe iterator."))) ∧
      (n.hasResult = true →
        wrapRun n ⟨y :: rest, ending⟩ =
          (n, .error (.runtimeError "Multiple values yielded by recipe iterator."))) ∧
      (n.hasResult = false →
        wrapRun n ⟨wss.map .waitY, .normal⟩ =
          (n, .error (.runtimeError "No values yielded by recipe iterator."))) := by
  intro n n2 v y rest ending wss
  refine ⟨fun hr hset => ?_, fun hr => ?_, fun hr => wrapGo_waits hr wss []⟩
  · have h2 := (setResult_ok_spec hset).2.1
    simp [wrapRun, wrapGo, hr, hset, h2]
  · simp [wrapRun, wrapGo, hr]

/-- Witness for C6 at concrete inputs: a body yielding two plain values
trips the multiple-values error (both from an empty and from a filled
slot), and a body yielding only `Wait` tokens trips the no-values error. -/
theorem c6_exactly_one_terminal_value_witness :
    ((freshNode "area" []).hasResult = false ∧
      setResult (freshNode "area" []) (.int 35) = .ok filledAreaNode ∧
      wrapRun (freshNode "area" [])
          ⟨[.plainY (.int 35), .plainY (.int 36)], .normal⟩ =
        (filledAreaNode,
          .error (.runtimeError "Multiple values yielded by recipe iterator."))) ∧
    (filledAreaNode.hasResult = true ∧
      wrapRun filledAreaNode ⟨[.plainY (.int 36)], .normal⟩ =
        (filledAreaNode,
          .error (.runtimeError "Multiple values yielded by recipe iterator."))) ∧
    ((freshNode "noop" []).hasResult = false ∧
      wrapRun (freshNode "noop" []) ⟨[.waitY [], .waitY [1]], .normal⟩ =
        (freshNode "noop" [],
          .error (.runtimeError "No values yielded by recipe iterator."))) := by
  refine ⟨⟨rfl, rfl, ?_⟩, ⟨rfl, ?_⟩, ⟨rfl, ?_⟩⟩
  · exact (c6_exactly_one_terminal_value (freshNode "area" []) filledAreaNode
      (.int 35) (.plainY (.int 36)) [] .normal []).1 rfl rfl
  · exact (c6_exactly_one_terminal_value filledAreaNode filledAreaNode
      (.int 0) (.plainY (.int 36)) [] .normal []).2.1 rfl
  · exact (c6_exactly_one_terminal_value (freshNode "noop" []) (freshNode "noop" [])
      (.int 0) (.waitY []) [] .normal [[], [1]]).2.2 rfl

/-- C1 (evidence of the code bug): in src/dfcompu.py an exception raised by
the recipe body propagates out of `wrap_node_iterator` uncaught — the node
state is returned unchanged with the original exception — so the result
slot stays empty and a subsequent `get()` raises `RuntimeError('Node result
not available yet.')` instead of surfacing the stored exception; no
`ExceptionResult` is ever stored (the class does not exist in
src/dfcompu.py, although src/dfcompu_test.py imports it). -/
theorem c1_exception_not_stored_in_result_slot :
    wrapRun (freshNode "bad_luck" []) ⟨[], .raised (.valueError "Bad luck.")⟩ =
      (freshNode "bad_luck" [], .error (.valueError "Bad luck.")) ∧
    (freshNode "bad_luck" []).hasResult = false ∧
    nodeGet (freshNode "bad_luck" []) =
      .error (.runtimeError "Node result not available yet.") :=
  ⟨rfl, rfl, rfl⟩

/-- Helper: a recipe with more than one result name has a
`result_tuple_type`. -/
lemma hasResultTupleType_of_one_lt {l : List String} (h : 1 < l.length) :
    hasResultTupleType l = true := by
  simp [hasResultTupleType]
  exact Or.inl (Nat.ne_of_gt h)

/-- A two-result node of the `next_fib` recipe (`result=('a_next','b_next')`)
before it runs. -/
def nextFibNode : NodeSt :=
  { resultNames := ["a_next", "b_next"], hasResult := false, result := .nonePy,
    inputs := [.constantI (.int 20), .constantI (.int 30)],
    nodeIterator := some 1, name := "next_fib" }

/-- Counterexample to C8: on the two-result `next_fib` node, delivering the
non-tuple terminal 5 raises `ValueError('tuple result expected.')` — a
`ValueError`, not the `RuntimeError` the claim requires. -/
theorem c8_counterexample_value_error_not_runtime :
    setResult nextFibNode (.int 5) =
      .error (.valueError "tuple result expected.") ∧
    PyErr.isRuntimeError (.valueError "tuple result expected.") = false :=
  ⟨rfl, rfl⟩

/-- C8 as amended: for every node of a recipe with more than one result
name, a terminal value that is not a tuple or list, or whose length differs
from the declared number of result names, raises `ValueError` (class
`ValueError`, not `RuntimeError`), with the messages of the source. -/
theorem c8_amended_arity_errors_are_value_errors :
    ∀ (n : NodeSt) (v : PyVal) (items : List PyVal),
      n.hasResult = false → 1 < n.resultNames.length →
      (v.isTupleOrList = false →
        setResult n v = .error (.valueError "tuple result expected.")) ∧
      ((v = .tuple items ∨ v = .list items) →
        items.length ≠ n.resultNames.length →
        setResult n v =
          .error (.valueError (sizeMismatchMsg n.resultNames.length items.length))) := by
  intro n v items hr hlen
  have htt := hasResultTupleType_of_one_lt hlen
  constructor
  · intro hv
    cases v <;> simp_all [setResult, PyVal.isTupleOrList]
  · rintro (rfl | rfl) hne <;> simp [setResult, hr, htt, hne]

/-- Witness for C8 as amended at concrete inputs: the `next_fib` node
rejects the non-tuple 5 and the singleton tuple `(5,)` with the two
`ValueError`s of the source. -/
theorem c8_amended_arity_errors_witness :
    (nextFibNode.hasResult = false ∧ 1 < nextFibNode.resultNames.length) ∧
    (setResult nextFibNode (.int 5) =
      .error (.valueError "tuple result expected.")) ∧
    (setResult nextFibNode (.tuple [.int 5]) =
      .error (.valueError (sizeMismatchMsg 2 1))) := by
  refine ⟨⟨rfl, by decide⟩, ?_, ?_⟩
  · exact ((c8_amended_arity_errors_are_value_errors nextFibNode (.int 5) []
      rfl (by decide)).1 rfl)
  · exact ((c8_amended_arity_errors_are_value_errors nextFibNode
      (.tuple [.int 5]) [.int 5] rfl (by decide)).2 (Or.inl rfl) (by decide))

/-- Python sequence indexing `v[i]`, as used by `NodeSubresultInput.get` on
the parent's tuple result. -/
def pyIndex (v : PyVal) (i : Nat) : Except PyErr PyVal :=
  match v with
  | .tuple items =>
    match items.get? i with
    | some x => .ok x
    | none => .error (.indexError "tuple index out of range")
  | .list items =>
    match items.get? i with
    | some x => .ok x
    | none => .error (.indexError "list index out of range")
  | _ => .error (.typeError "object is not subscriptable")

/-- `NodeSubresultInput`: the view `node[i]` over a multi-result node,
created by `Node.__getitem__`. -/
structure NodeSubresultInput where
  node : NodeSt
  i : Nat
  deriving Repr

/-- `NodeSubresultInput.get`: `self.node.get()[self.i]`. -/
def subGet (s : NodeSubresultInput) : Except PyErr PyVal :=
  match nodeGet s.node with
  | .error e => .error e
  | .ok v => pyIndex v s.i

/-- `NodeSubresultInput.is_available`: delegates to the parent node. -/
def subIsAvailable (s : NodeSubresultInput) : Bool :=
  nodeIsAvailable s.node

/-- `NodeSubresultInput.wait`: delegates to the parent node. -/
def subWait (s : NodeSubresultInput) : List NodeSt :=
  nodeWait s.node

/-- The `node_iterator` property of `NodeSubresultInput`: returns
`self.node.node_iterator`. -/
def subNodeIterator (s : NodeSubresultInput) : Option Nat :=
  s.node.nodeIterator

/-- The `inputs` property of `NodeSubresultInput` exactly as written in
src/dfcompu.py: its body is `return self.node.node_iterator` — it returns
the parent's iterator reference, not the parent's inputs list. -/
def subInputsAttr (s : NodeSubresultInput) : Option Nat :=
  s.node.nodeIterator

/-- The `name` property of `NodeSubresultInput`:
`'%s.%s' % (self.node.name, self.node.recipe.result_names[self.i])`,
recomputed from the parent's current name.  (`Node.__getitem__` guarantees
`i` is within the result arity, so `getD` never falls back.) -/
def subName (s : NodeSubresultInput) : String :=
  s.node.name ++ "." ++ s.node.resultNames.getD s.i ""

/-- The `next_fib` node after its result `(30, 50)` has been set. -/
def nextFibDone : NodeSt :=
  { resultNames := ["a_next", "b_next"], hasResult := true,
    result := .tuple [.int 30, .int 50],
    inputs := [.constantI (.int 20), .constantI (.int 30)],
    nodeIterator := none, name := "next_fib" }

/-- C2 (evidence of the code bug): on `next_fib.node(20, 30)[1]` the
projection's `available?`, `wait`, `node_iterator` and `name` delegate to
the parent, and `get` returns the second component of the parent's tuple
result; but the `inputs` property returns the parent's `node_iterator`
reference (here the live iterator `some 1`), not the parent's inputs list
`[ConstantInput(20), ConstantInput(30)]` the claim requires. -/
theorem c2_inputs_property_returns_parent_iterator :
    subInputsAttr ⟨nextFibNode, 1⟩ = nextFibNode.nodeIterator ∧
    nextFibNode.nodeIterator = some 1 ∧
    nextFibNode.inputs = [.constantI (.int 20), .constantI (.int 30)] ∧
    subGet ⟨nextFibDone, 1⟩ = .ok (.int 50) ∧
    subIsAvailable ⟨nextFibNode, 1⟩ = nodeIsAvailable nextFibNode ∧
    subIsAvailable ⟨nextFibDone, 1⟩ = nodeIsAvailable nextFibDone ∧
    subWait ⟨nextFibNode, 1⟩ = nodeWait nextFibNode ∧
    subNodeIterator ⟨nextFibNode, 1⟩ = nextFibNode.nodeIterator ∧
    subName ⟨nextFibNode, 1⟩ = "next_fib.b_next" :=
  ⟨rfl, rfl, rfl, rfl, rfl, rfl, rfl, rfl, rfl⟩

/-- A Python code object, the fields of `func_code` that `Recipe.__init__`
inspects.  `co_argcount` is a count, hence `Nat` (the source's
`co_argcount < 0` check can never fire). -/
structure CodeObj where
  coArgcount : Nat
  coCellvars : List String
  coFreevars : List String
  coFlags : Nat
  coVarnames : List String
  deriving Repr

/-- A Python callable as `Recipe.__init__` sees it: whether it is callable
and its (possibly absent) code object; `getattr(generator, 'func_code',
None)` treats an absent code object as falsy. -/
structure PyFunc where
  isCallable : Bool
  funcCode : Option CodeObj
  funcName : String
  deriving Repr

/-- The recipe metadata produced by a successful `Recipe.__init__`:
variadic flag (`CO_VARARGS = 0x4`), the positional parameter names, the
result names, and whether the body was already a generator function
(`CO_GENERATOR = 0x20`; otherwise `convert_function_to_generator` wraps
it). -/
structure RecipeMeta where
  hasVarargs : Bool
  argNames : List String
  resultNames : List String
  isGenerator : Bool
  deriving Repr

/-- `Recipe.__init__`: rejects non-callables and callables without a code
object, code objects with cell variables or free variables, and
`CO_VARKEYWORDS = 0x8` (a `**kwargs` parameter) — each with a bare
`ValueError` — then records the metadata. -/
def recipeInit (f : PyFunc) (result : List String) : Except PyErr RecipeMeta :=
  if !f.isCallable then .error (.valueError "")
  else
    match f.funcCode with
    | none => .error (.valueError "")
    | some c =>
      if c.coCellvars ≠ [] then .error (.valueError "")
      else if c.coFreevars ≠ [] then .error (.valueError "")
      else if c.coFlags &&& 0x8 ≠ 0 then .error (.valueError "")
      else
        .ok { hasVarargs := c.coFlags &&& 0x4 ≠ 0,
              argNames := c.coVarnames.take c.coArgcount,
              resultNames := result.map id,
              isGenerator := c.coFlags &&& 0x20 ≠ 0 }

/-- C10: `Recipe` construction raises `ValueError` for every callable
without a code object (or non-callable), and for every body whose code
object has cell variables, free variables, or the `CO_VARKEYWORDS` flag
(a `**kwargs` parameter). -/
theorem c10_recipe_rejects_closures_and_varkeywords :
    ∀ (f : PyFunc) (result : List String),
      (f.isCallable = false ∨ f.funcCode = none ∨
        (∃ c, f.funcCode = some c ∧
          (c.coCellvars ≠ [] ∨ c.coFreevars ≠ [] ∨ c.coFlags &&& 0x8 ≠ 0))) →
      recipeInit f result = .error (.valueError "") := by
  intro f result h
  rcases h with h | h | ⟨c, hc, h⟩
  · simp [recipeInit, h]
  · by_cases hcall : f.isCallable
    · simp [recipeInit, hcall, h]
    · simp [recipeInit, hcall]
  · by_cases hcall : f.isCallable
    · rcases h with h | h | h <;> by_cases h2 : c.coCellvars = [] <;>
        by_cases h3 : c.coFreevars = [] <;>
        simp_all [recipeInit, hcall, hc]
    · simp [recipeInit, hcall]

/-- Witness for C10 at a concrete input: a callable whose code object has a
free variable (a closure) is rejected with `ValueError`. -/
theorem c10_recipe_rejects_closures_witness :
    ((PyFunc.mk true (some (CodeObj.mk 1 [] ["captured"] 0 ["a"])) "clo").isCallable = false ∨
      (PyFunc.mk true (some (CodeObj.mk 1 [] ["captured"] 0 ["a"])) "clo").funcCode = none ∨
      (∃ c, (PyFunc.mk true (some (CodeObj.mk 1 [] ["captured"] 0 ["a"])) "clo").funcCode = some c ∧
        (c.coCellvars ≠ [] ∨ c.coFreevars ≠ [] ∨ c.coFlags &&& 0x8 ≠ 0))) ∧
    recipeInit (PyFunc.mk true (some (CodeObj.mk 1 [] ["captured"] 0 ["a"])) "clo")
        ["result"] = .error (.valueError "") := by
  have h : (PyFunc.mk true (some (CodeObj.mk 1 [] ["captured"] 0 ["a"])) "clo").isCallable = false ∨
      (PyFunc.mk true (some (CodeObj.mk 1 [] ["captured"] 0 ["a"])) "clo").funcCode = none ∨
      (∃ c, (PyFunc.mk true (some (CodeObj.mk 1 [] ["captured"] 0 ["a"])) "clo").funcCode = some c ∧
        (c.coCellvars ≠ [] ∨ c.coFreevars ≠ [] ∨ c.coFlags &&& 0x8 ≠ 0)) :=
    Or.inr (Or.inr ⟨CodeObj.mk 1 [] ["captured"] 0 ["a"], rfl, Or.inr (Or.inl (by decide))⟩)
  exact ⟨h, c10_recipe_rejects_closures_and_varkeywords _ ["result"] h⟩

/-- `yield_inputs` exactly as written in src/dfcompu.py: for a
`ConstantInput` wrapping an `InputSequence` it iterates the members and,
for each member that is an `Input`, yields `input` — the wrapping
`ConstantInput` itself, not the member `input2`; every other input is
yielded as itself. -/
def yieldInputs (g : GInput) : List GInput :=
  match g with
  | .constSeqI items =>
    (items.filter SeqEntry.isInput).map (fun _ => GInput.constSeqI items)
  | g => [g]

/-- The body of `_add_context_to_node_inputs` for one input: for every
object yielded by `yield_inputs`, if it is a `ContextInput`, call
`set_context(context)` on it.  The in-place mutation of the yielded object
is modelled by replacing the input, which is exact because the only case in
which the yielded object is a `ContextInput` is when it is the input
itself. -/
def applyCtxToInput (context : Ctx) (g : GInput) : Except PyErr GInput :=
  (yieldInputs g).foldlM
    (fun acc input2 =>
      match input2 with
      | .ctxI key old => ctxSetContext key old context
      | _ => pure acc) g

/-- `_add_context_to_node_inputs(nodes, context)` over the nodes' inputs
lists. -/
def addContextToNodeInputs (nodes : List (List GInput)) (context : Ctx) :
    Except PyErr (List (List GInput)) :=
  nodes.mapM (fun inputs => inputs.mapM (applyCtxToInput context))

/-- `ConstantInput(InputSequence(ContextInput('k')))`: a context placeholder
that is a member of an input sequence wrapped in a constant. -/
def seqCtxInput : GInput := .constSeqI [.ctxEntry (some "k") none]

/-- The context dict of the run, `{'k': 1}`. -/
def runCtx : Ctx := ⟨0, [("k", .int 1)]⟩

/-- C3 (evidence of the code bug): `yield_inputs` on
`ConstantInput(InputSequence(ContextInput('k')))` yields the wrapping
constant instead of the member, so `_add_context_to_node_inputs` leaves the
placeholder inside the sequence unbound and its `get()` during the run
raises `ValueError('Context not set in get.')`; a placeholder appearing
directly in the inputs list is bound correctly by the same wiring. -/
theorem c3_context_inside_sequence_left_unbound :
    yieldInputs seqCtxInput = [seqCtxInput] ∧
    addContextToNodeInputs [[seqCtxInput]] runCtx = .ok [[seqCtxInput]] ∧
    ctxGet (some "k") none = .error (.valueError "Context not set in get.") ∧
    addContextToNodeInputs [[.ctxI (some "k") none]] runCtx =
      .ok [[.ctxI (some "k") (some runCtx)]] ∧
    ctxGet (some "k") (some runCtx) = .ok (.int 1) :=
  ⟨rfl, rfl, rfl, rfl, rfl⟩

/-- A discovered node as the run driver's instrumentation step sees it: its
display name, its inputs list (`none` once stripped, mirroring Python
`None`), and the clock it samples timestamps from (`none` until the driver
sets it, identified by a tag). -/
structure DNode where
  dname : String
  dinputs : Option (List Nat)
  dclock : Option Nat
  deriving Repr, DecidableEq

/-- Modelled from the spec: steps 5 and 6 of the run driver
`run(inputs, context, runner, debug_nodes, clock)` of spec section 4.7 —
the `debug_nodes` and `clock` parameters and their handling are exercised
by src/dfcompu_test.py (`run_graph(..., debug_nodes=..., get_time_func=...)`)
but are not implemented by the older `run_graph` draft in src/dfcompu.py.
After discovery, renaming and context wiring and before invoking the
runner: when `debug_nodes` is null, strip each discovered node's inputs
list (set it to null); when it is a collection, append all discovered
nodes to it and leave every inputs list unchanged; in both cases set every
node's clock.  Returns the nodes as handed to the runner and the final
debug collection. -/
def runDriverWiring (nodes : List DNode) (debugNodes : Option (List DNode))
    (clock : Nat) : List DNode × Option (List DNode) :=
  match debugNodes with
  | none =>
    (nodes.map (fun n => { n with dinputs := none, dclock := some clock }), none)
  | some ds =>
    (nodes.map (fun n => { n with dclock := some clock }),
      some (ds ++ nodes.map (fun n => { n with dclock := some clock })))

/-- C4: with `debug_nodes` null the driver strips every discovered node's
inputs list to null before the runner runs; with `debug_nodes` a collection
it appends all discovered nodes to the collection and leaves every node's
inputs list unchanged and readable; the entry point takes the `debug_nodes`
and `clock` parameters (the clock is set on every node in both modes). -/
theorem c4_debug_nodes_strip_or_append :
    ∀ (nodes ds : List DNode) (clock : Nat),
      (∀ n, n ∈ (runDriverWiring nodes none clock).1 → n.dinputs = none) ∧
      ((runDriverWiring nodes none clock).2 = none) ∧
      ((runDriverWiring nodes (some ds) clock).1.map DNode.dinputs =
        nodes.map DNode.dinputs) ∧
      ((runDriverWiring nodes (some ds) clock).2 =
        some (ds ++ (runDriverWiring nodes (some ds) clock).1)) ∧
      (∀ n, n ∈ (runDriverWiring nodes none clock).1 ∨
          n ∈ (runDriverWiring nodes (some ds) clock).1 →
        n.dclock = some clock) := by
  intro nodes ds clock
  refine ⟨?_, rfl, ?_, rfl, ?_⟩
  · intro n hn
    simp only [runDriverWiring, List.mem_map] at hn
    obtain ⟨m, _, rfl⟩ := hn
    rfl
  · simp [runDriverWiring]
  · intro n hn
    rcases hn with hn | hn <;> simp only [runDriverWiring, List.mem_map] at hn <;>
      obtain ⟨m, _, rfl⟩ := hn <;> rfl

/-- Witness for C4 at a concrete input: one discovered node named `cond`
with a two-element inputs list, run once with `debug_nodes` null and once
with an empty collection. -/
theorem c4_debug_nodes_strip_or_append_witness :
    (∀ n, n ∈ (runDriverWiring [DNode.mk "cond" (some [1, 2]) none] none 7).1 →
      n.dinputs = none) ∧
    ((runDriverWiring [DNode.mk "cond" (some [1, 2]) none] (some []) 7).1.map
        DNode.dinputs = [some [1, 2]]) ∧
    ((runDriverWiring [DNode.mk "cond" (some [1, 2]) none] (some []) 7).2 =
      some ([] ++ (runDriverWiring [DNode.mk "cond" (some [1, 2]) none] (some []) 7).1)) := by
  refine ⟨(c4_debug_nodes_strip_or_append [DNode.mk "cond" (some [1, 2]) none] [] 7).1,
    ?_, (c4_debug_nodes_strip_or_append [DNode.mk "cond" (some [1, 2]) none] [] 7).2.2.2.1⟩
  have h := (c4_debug_nodes_strip_or_append [DNode.mk "cond" (some [1, 2]) none] [] 7).2.2.1
  simpa using h

/-- A node as the runner sees it: the one-shot result slot plus the
suspended iterator, represented by the wait lists it has yet to yield
(`emits`) and the value its adapter will store on exhaustion (`final`).
This is the function-recipe shape produced by
`convert_function_to_generator`: a fixed sequence of waits, then one
terminal. -/
structure RunnerNode where
  hasResult : Bool
  result : PyVal
  emits : List (List Nat)
  final : PyVal

/-- The heap of nodes a run works on, indexed by node identity. -/
structure Machine where
  nodes : Nat → RunnerNode

/-- `input.is_available()` on the machine. -/
def isAvail (m : Machine) (i : Nat) : Bool :=
  (m.nodes i).hasResult

/-- In-place mutation of one node of the machine. -/
def setNode (m : Machine) (i : Nat) (f : RunnerNode → RunnerNode) : Machine :=
  ⟨fun j => if j = i then f (m.nodes i) else m.nodes j⟩

/-- The inner `for wait_inputs in input.node_iterator` loop of
`simple_runner`: each yielded wait list is filtered down to its
non-available entries (`_get_unavailable_input_nodes`); an empty remainder
advances the iterator again; a non-empty remainder suspends the iterator
(`break` at APPEND_BREAK) and hands the blockers back; exhaustion means the
adapter has set the node's result.  Returns the machine and the blockers to
push, `none` when the node completed. -/
def runInner (m : Machine) (id : Nat) :
    List (List Nat) → PyVal → Machine × Option (List Nat)
  | [], final =>
    (setNode m id (fun n =>
      { n with hasResult := true, result := final, emits := [] }), none)
  | ws :: rest, final =>
    let ws2 := ws.filter (fun j => !(isAvail m j))
    if ws2.isEmpty then runInner m id rest final
    else (setNode m id (fun n => { n with emits := rest }), some ws2)

/-- `simple_runner(pending_inputs)`: depth-first stepping with the pending
stack.  The stack top (`pending_inputs[-1]`) is the list head here, so the
source's `pending_inputs.extend(wait_inputs)` pushes the blockers reversed.
An available top is popped without its iterator being advanced; otherwise
the iterator is advanced and the node is either completed and popped or
left beneath its blockers.  Fuel bounds the loop; `none` means the fuel ran
out. -/
def simpleRunner (fuel : Nat) (m : Machine) (pending : List Nat) :
    Option Machine :=
  match pending with
  | [] => some m
  | top :: rest =>
    match fuel with
    | 0 => none
    | fuel + 1 =>
      if isAvail m top then simpleRunner fuel m rest
      else
        match runInner m top (m.nodes top).emits (m.nodes top).final with
        | (m2, none) => simpleRunner fuel m2 rest
        | (m2, some ws2) => simpleRunner fuel m2 (ws2.reverse ++ top :: rest)

/-- `run_graph(inputs)` over the machine: collect the non-available inputs
as the pending stack (discovery, renaming and context wiring touch only
names and context bindings, modelled separately), run `simple_runner`, and
return the inputs tuple itself. -/
def runGraphM (fuel : Nat) (m : Machine) (inputs : List Nat) :
    Option (Machine × List Nat) :=
  match simpleRunner fuel m ((inputs.filter (fun i => !(isAvail m i))).reverse) with
  | some m2 => some (m2, inputs)
  | none => none

/-- Helper: availability after a node mutation. -/
lemma isAvail_setNode (m : Machine) (i : Nat) (f : RunnerNode → RunnerNode)
    (j : Nat) :
    isAvail (setNode m i f) j =
      if j = i then (f (m.nodes i)).hasResult else isAvail m j := by
  by_cases h : j = i <;> simp [isAvail, setNode, h]

/-- Helper: advancing a node's iterator never takes availability away from
any node. -/
lemma runInner_mono {j : Nat} :
    ∀ (emits : List (List Nat)) (final : PyVal) (m : Machine) (id : Nat),
      isAvail m j = true → isAvail (runInner m id emits final).1 j = true := by
  intro emits
  induction emits with
  | nil =>
    intro final m id h
    rw [runInner, isAvail_setNode]
    split
    · rfl
    · exact h
  | cons ws rest ih =>
    intro final m id h
    rw [runInner]
    split
    · exact ih final m id h
    · rw [isAvail_setNode]
      split
      · subst j; exact h
      · exact h

/-- Helper: when the inner loop reports completion, the stepped node is
available. -/
lemma runInner_done_avail :
    ∀ (emits : List (List Nat)) (final : PyVal) (m m2 : Machine) (id : Nat),
      runInner m id emits final = (m2, none) → isAvail m2 id = true := by
  intro emits
  induction emits with
  | nil =>
    intro final m m2 id h
    rw [runInner] at h
    injection h with h1 _
    subst h1
    rw [isAvail_setNode]
    simp
  | cons ws rest ih =>
    intro final m m2 id h
    rw [runInner] at h
    split at h
    · exact ih final m m2 id h
    · injection h with _ h2
      exact absurd h2 (by simp)

/-- Helper: a successful `simple_runner` run never takes availability away,
and every input on the initial pending stack is available when it
returns. -/
lemma simpleRunner_spec :
    ∀ (fuel : Nat) (st : List Nat) (m m2 : Machine),
      simpleRunner fuel m st = some m2 →
      (∀ j, isAvail m j = true → isAvail m2 j = true) ∧
      (∀ j, j ∈ st → isAvail m2 j = true) := by
  intro fuel
  induction fuel with
  | zero =>
    intro st m m2 h
    cases st with
    | nil =>
      rw [simpleRunner] at h
      injection h with h1
      subst h1
      exact ⟨fun j hj => hj, fun j hj => absurd hj (List.not_mem_nil j)⟩
    | cons top rest => exact absurd h (by rw [simpleRunner]; simp)
  | succ fuel ih =>
    intro st m m2 h
    cases st with
    | nil =>
      rw [simpleRunner] at h
      injection h with h1
      subst h1
      exact ⟨fun j hj => hj, fun j hj => absurd hj (List.not_mem_nil j)⟩
    | cons top rest =>
      rw [simpleRunner] at h
      by_cases hav : isAvail m top = true
      · rw [if_pos hav] at h
        obtain ⟨mono, hall⟩ := ih rest m m2 h
        refine ⟨mono, fun j hj => ?_⟩
        rcases List.mem_cons.mp hj with rfl | hj
        · exact mono j hav
        · exact hall j hj
      · rw [if_neg hav] at h
        rcases hri : runInner m top (m.nodes top).emits (m.nodes top).final
          with ⟨m1, opt⟩
        rw [hri] at h
        cases opt with
        | none =>
          obtain ⟨mono1, hall⟩ := ih rest m1 m2 h
          have hm1 : ∀ j, isAvail m j = true → isAvail m1 j = true := by
            intro j hj
            have := runInner_mono (m.nodes top).emits (m.nodes top).final m top hj
            rwa [hri] at this
          refine ⟨fun j hj => mono1 j (hm1 j hj), fun j hj => ?_⟩
          rcases List.mem_cons.mp hj with rfl | hj
          · exact mono1 j (runInner_done_avail _ _ m m1 j hri)
          · exact hall j hj
        | some ws2 =>
          obtain ⟨mono1, hall⟩ := ih (ws2.reverse ++ top :: rest) m1 m2 h
          have hm1 : ∀ j, isAvail m j = true → isAvail m1 j = true := by
            intro j hj
            have := runInner_mono (m.nodes top).emits (m.nodes top).final m top hj
            rwa [hri] at this
          refine ⟨fun j hj => mono1 j (hm1 j hj), fun j hj => ?_⟩
          exact hall j (List.mem_append_right _ hj)

/-- C9: `run_graph` is idempotent — a successful run returns its input
tuple itself, and running again from the resulting machine state succeeds
with any fuel, returning the same tuple and the identical machine (no node
is re-stepped); moreover the simple runner pops an available pending input
without advancing any iterator: its very next state is the same machine on
the popped stack. -/
theorem c9_run_graph_idempotent :
    (∀ (fuel : Nat) (m : Machine) (inputs : List Nat) (m2 : Machine)
        (out : List Nat),
      runGraphM fuel m inputs = some (m2, out) →
      out = inputs ∧ ∀ fuel2, runGraphM fuel2 m2 out = some (m2, out)) ∧
    (∀ (m : Machine) (top : Nat) (rest : List Nat) (fuel : Nat),
      isAvail m top = true →
      simpleRunner (fuel + 1) m (top :: rest) = simpleRunner fuel m rest) := by
  constructor
  · intro fuel m inputs m2 out h
    rw [runGraphM] at h
    rcases hsr : simpleRunner fuel m
        ((inputs.filter (fun i => !(isAvail m i))).reverse) with _ | m1
    · rw [hsr] at h; exact absurd h (by simp)
    · rw [hsr] at h
      injection h with h1
      injection h1 with hm hout
      subst hm
      subst hout
      obtain ⟨mono, hall⟩ := simpleRunner_spec fuel _ m m1 hsr
      refine ⟨rfl, fun fuel2 => ?_⟩
      have hfil : inputs.filter (fun i => !(isAvail m1 i)) = [] := by
        rw [List.filter_eq_nil_iff]
        intro i hi
        have hin : isAvail m1 i = true := by
          by_cases hv : isAvail m i = true
          · exact mono i hv
          · refine hall i (List.mem_reverse.mpr ?_)
            rw [List.mem_filter]
            exact ⟨hi, by simp [Bool.eq_false_iff.mpr hv]⟩
        simp [hin]
      rw [runGraphM, hfil]
      rw [List.reverse_nil, simpleRunner]
  · intro m top rest fuel h
    rw [simpleRunner]
    simp only [h, if_true]

/-- The one-node machine of the `area` recipe before its run: node 0 is
unavailable, yields no waits, and finishes with 42. -/
def exMachine : Machine :=
  ⟨fun j => if j = 0 then ⟨false, .nonePy, [], .int 42⟩
            else ⟨false, .nonePy, [], .nonePy⟩⟩

/-- `exMachine` after its single node has been stepped to completion. -/
def exMachineDone : Machine :=
  setNode exMachine 0 (fun n =>
    { n with hasResult := true, result := .int 42, emits := [] })

/-- Witness for C9 at concrete inputs: running the one-node graph once
returns its input tuple; re-running from the final state with unrelated
fuel returns the identical machine and tuple; and popping the now-available
input does not advance anything. -/
theorem c9_run_graph_idempotent_witness :
    runGraphM 1 exMachine [0] = some (exMachineDone, [0]) ∧
    runGraphM 3 exMachineDone [0] = some (exMachineDone, [0]) ∧
    simpleRunner 1 exMachineDone [0] = simpleRunner 0 exMachineDone [] := by
  refine ⟨rfl, ?_, ?_⟩
  · exact (c9_run_graph_idempotent.1 1 exMachine [0] exMachineDone [0] rfl).2 3
  · exact c9_run_graph_idempotent.2 exMachineDone 0 [] 0 rfl

/-- The decimal rendering `'%d' % n` as a character list (names are embedded
as character lists because `_rename_nodes` builds new names by string
formatting). -/
def natDecimal (n : Nat) : List Char :=
  if n = 0 then ['0'] else ((Nat.digits 10 n).reverse.map Nat.digitChar)

/-- The `node_name_counts` dict of `_rename_nodes` after its first two
loops: every name counted over the discovery list, entries with count 1
deleted. -/
def initMap (names : List (List Char)) : List Char → Option Nat :=
  fun nm => if 2 ≤ names.count nm then some (names.count nm) else none

/-- The third loop of `_rename_nodes`, `for node in reversed(nodes)`:
processed right-to-left (the recursion handles the tail — the later
discoveries — first), a name still in the dict is suffixed with
`'#%d' % nc` and its dict entry decremented; a name not in the dict is kept
unchanged.  Returns the renamed list and the final dict. -/
def renAux : List (List Char) → (List Char → Option Nat) →
    List (List Char) × (List Char → Option Nat)
  | [], m => ([], m)
  | nm :: rest, m =>
    match renAux rest m with
    | (out, m1) =>
      match m1 nm with
      | none => (nm :: out, m1)
      | some nc =>
        ((nm ++ '#' :: natDecimal nc) :: out,
          fun k => if k = nm then some (nc - 1) else m1 k)

/-- `_rename_nodes(nodes)` on the discovery-ordered list of display
names. -/
def renameNodes (names : List (List Char)) : List (List Char) :=
  (renAux names (initMap names)).1

/-- Helper: `natDecimal 1` evaluates to the digit 1. -/
lemma natDecimal_one : natDecimal 1 = ['1'] := by
  rw [natDecimal, if_neg (by norm_num : ¬(1 = 0))]
  rw [Nat.digits_def' (by norm_num : (1:ℕ) < 10) (by norm_num : 0 < 1)]
  norm_num
  rfl

/-- Helper: `natDecimal 2` evaluates to the digit 2. -/
lemma natDecimal_two : natDecimal 2 = ['2'] := by
  rw [natDecimal, if_neg (by norm_num : ¬(2 = 0))]
  rw [Nat.digits_def' (by norm_num : (1:ℕ) < 10) (by norm_num : 0 < 2)]
  norm_num
  rfl

/-- Counterexample to C5 as universally stated: on the discovery-ordered
name list `['a', 'a', 'a#1']` — constructible because `node.name` is a
mutable attribute and `_rename_nodes` itself writes `#`-suffixed names that
can be rediscovered after a failed run — renaming produces
`['a#1', 'a#2', 'a#1']`, which is not pairwise distinct. -/
theorem c5_counterexample_rename_collision :
    ¬ List.Nodup (renameNodes [['a'], ['a'], ['a', '#', '1']]) := by
  have h : renameNodes [['a'], ['a'], ['a', '#', '1']] =
      [['a'] ++ '#' :: natDecimal 1, ['a'] ++ '#' :: natDecimal 2,
        ['a', '#', '1']] := rfl
  rw [h, natDecimal_one, natDecimal_two]
  decide

/-- Helper: after the reverse-order pass over `l`, the dict entry of each
name has been decremented once per occurrence of that name in `l`. -/
lemma renAux_sndApp :
    ∀ (l : List (List Char)) (m : List Char → Option Nat) (k : List Char),
      (renAux l m).2 k = (m k).map (fun v => v - l.count k) := by
  intro l
  induction l with
  | nil => intro m k; simp [renAux]
  | cons nm rest ih =>
    intro m k
    rw [renAux]
    rcases hrec : renAux rest m with ⟨out, m1⟩
    dsimp only
    have hk : m1 k = (m k).map (fun v => v - rest.count k) := by
      have := ih m k
      rw [hrec] at this
      exact this
    cases hm1 : m1 nm with
    | none =>
      by_cases hkn : k = nm
      · subst hkn
        rw [hm1] at hk
        have hmk : m k = none := (Option.map_eq_none'.mp hk.symm)
        simp [hmk, hm1]
      · simp only
        rw [hk, List.count_cons_of_ne hkn]
    | some nc =>
      by_cases hkn : k = nm
      · subst hkn
        rw [hm1] at hk
        obtain ⟨v, hv, hvc⟩ := Option.map_eq_some'.mp hk.symm
        simp [hv]
        omega
      · simp only [if_neg hkn]
        rw [hk, List.count_cons_of_ne hkn]

/-- Helper: renaming preserves the length of the name list. -/
lemma renAux_len :
    ∀ (l : List (List Char)) (m : List Char → Option Nat),
      (renAux l m).1.length = l.length := by
  intro l
  induction l with
  | nil => intro m; simp [renAux]
  | cons nm rest ih =>
    intro m
    rw [renAux]
    rcases hrec : renAux rest m with ⟨out, m1⟩
    have hl : out.length = rest.length := by
      have := ih m
      rw [hrec] at this
      exact this
    dsimp only
    cases m1 nm <;> simp [hl]

/-- Helper: the renamed list at position `i`: a name absent from the dict is
unchanged, a name with dict entry `v` receives the suffix
`# (v - occurrences after position i)`. -/
lemma renAux_get :
    ∀ (l : List (List Char)) (m : List Char → Option Nat) (i : Nat)
      (nm : List Char),
      l[i]? = some nm →
      (renAux l m).1[i]? =
        some (match m nm with
          | none => nm
          | some v => nm ++ '#' :: natDecimal (v - (l.drop (i + 1)).count nm)) := by
  intro l
  induction l with
  | nil => intro m i nm h; simp at h
  | cons hd rest ih =>
    intro m i nm h
    rw [renAux]
    rcases hrec : renAux rest m with ⟨out, m1⟩
    dsimp only
    have hm1 : m1 hd = (m hd).map (fun v => v - rest.count hd) := by
      have := renAux_sndApp rest m hd
      rw [hrec] at this
      exact this
    cases i with
    | zero =>
      rw [List.getElem?_cons_zero] at h
      injection h with h
      subst h
      cases hmm : m hd with
      | none =>
        have h1 : m1 hd = none := by rw [hm1, hmm]; rfl
        rw [h1]
        simp
      | some v =>
        have h1 : m1 hd = some (v - rest.count hd) := by rw [hm1, hmm]; rfl
        rw [h1]
        simp
    | succ i =>
      rw [List.getElem?_cons_succ] at h
      have hih := ih m i nm h
      rw [hrec] at hih
      cases m1 hd <;> simpa using hih

/-- Helper: the full characterization of `_rename_nodes` at one position:
a solitary name is unchanged; a name with `N ≥ 2` occurrences receives
`#k` where `k` is its 1-based occurrence index in discovery order (the
reverse-order pass assigns `#N, …, #1`, so the first-discovered duplicate
gets `#1`). -/
lemma renameNodes_get :
    ∀ (names : List (List Char)) (i : Nat) (nm : List Char),
      names[i]? = some nm →
      (renameNodes names)[i]? =
        some (if 2 ≤ names.count nm then
          nm ++ '#' :: natDecimal ((names.take (i + 1)).count nm)
        else nm) := by
  intro names i nm h
  rw [renameNodes]
  rw [renAux_get names (initMap names) i nm h]
  rw [initMap]
  by_cases hc : 2 ≤ names.count nm
  · simp only [if_pos hc]
    have hsum : names.count nm =
        (names.take (i + 1)).count nm + (names.drop (i + 1)).count nm := by
      conv_lhs => rw [← List.take_append_drop (i + 1) names]
      rw [List.count_append]
    have harith : names.count nm - (names.drop (i + 1)).count nm =
        (names.take (i + 1)).count nm := by omega
    rw [harith]
  · simp only [if_neg hc]

/-- Helper: decimal digit characters determine the digit. -/
lemma digitChar_inj10 :
    ∀ a : Nat, a < 10 → ∀ b : Nat, b < 10 →
      Nat.digitChar a = Nat.digitChar b → a = b := by
  decide

/-- Helper: mapping `digitChar` over digit lists below 10 is injective. -/
lemma map_digitChar_inj :
    ∀ (l1 l2 : List Nat), (∀ x ∈ l1, x < 10) → (∀ x ∈ l2, x < 10) →
      l1.map Nat.digitChar = l2.map Nat.digitChar → l1 = l2 := by
  intro l1
  induction l1 with
  | nil =>
    intro l2 _ _ h
    cases l2 with
    | nil => rfl
    | cons y ys => simp at h
  | cons x xs ih =>
    intro l2 h1 h2 h
    cases l2 with
    | nil => simp at h
    | cons y ys =>
      simp only [List.map_cons, List.cons.injEq] at h
      have hx : x = y := digitChar_inj10 x (h1 x (List.mem_cons_self x xs))
        y (h2 y (List.mem_cons_self y ys)) h.1
      have hxs : xs = ys := ih ys (fun z hz => h1 z (List.mem_cons_of_mem x hz))
        (fun z hz => h2 z (List.mem_cons_of_mem y hz)) h.2
      rw [hx, hxs]

/-- Helper: the decimal rendering is injective on positive numbers. -/
lemma natDecimal_pos_inj :
    ∀ a b : Nat, 1 ≤ a → 1 ≤ b → natDecimal a = natDecimal b → a = b := by
  intro a b ha hb h
  rw [natDecimal, natDecimal, if_neg (by omega : ¬(a = 0)),
    if_neg (by omega : ¬(b = 0))] at h
  rw [List.map_reverse, List.map_reverse] at h
  have hm := List.reverse_injective h
  have hd : Nat.digits 10 a = Nat.digits 10 b :=
    map_digitChar_inj _ _
      (fun x hx => Nat.digits_lt_base (by norm_num) hx)
      (fun x hx => Nat.digits_lt_base (by norm_num) hx) hm
  have := congrArg (Nat.ofDigits 10) hd
  rwa [Nat.ofDigits_digits, Nat.ofDigits_digits] at this

/-- Helper: splitting at the first `#`: two suffixed names built from
`#`-free stems agree only when stems and suffixes agree. -/
lemma hashSplit :
    ∀ (a b x y : List Char), '#' ∉ a → '#' ∉ b →
      a ++ '#' :: x = b ++ '#' :: y → a = b ∧ x = y := by
  intro a
  induction a with
  | nil =>
    intro b x y _ hb h
    cases b with
    | nil => simp only [List.nil_append, List.cons.injEq] at h; exact ⟨rfl, h.2⟩
    | cons c bs =>
      simp only [List.nil_append, List.cons_append, List.cons.injEq] at h
      exact absurd (h.1 ▸ List.mem_cons_self c bs) hb
  | cons c as ih =>
    intro b x y ha hb h
    cases b with
    | nil =>
      simp only [List.cons_append, List.nil_append, List.cons.injEq] at h
      exact absurd (h.1 ▸ List.mem_cons_self c as) ha
    | cons d bs =>
      simp only [List.cons_append, List.cons.injEq] at h
      obtain ⟨hcd, hrest⟩ := h
      have has : '#' ∉ as := fun hmem => ha (List.mem_cons_of_mem c hmem)
      have hbs : '#' ∉ bs := fun hmem => hb (List.mem_cons_of_mem d hmem)
      obtain ⟨h1, h2⟩ := ih bs x y has hbs hrest
      exact ⟨by rw [hcd, h1], h2⟩

/-- Helper: the suffixed form of a name contains `#`. -/
lemma hash_mem_suffixed (nm x : List Char) : '#' ∈ nm ++ '#' :: x := by
  simp

/-- Helper: a name read at a position of the take-prefix that contains that
position occurs in the prefix. -/
lemma count_take_pos {names : List (List Char)} {i : Nat} {nm : List Char}
    (h : names[i]? = some nm) : 1 ≤ (names.take (i + 1)).count nm := by
  have hg : (names.take (i + 1))[i]? = some nm := by
    rw [List.getElem?_take_of_lt (Nat.lt_succ_self i)]
    exact h
  have hmem : nm ∈ names.take (i + 1) := List.getElem?_mem hg
  exact List.count_pos_iff.mpr hmem

/-- Helper: between two positions of the same name, the occurrence count of
the take-prefix strictly grows. -/
lemma count_take_lt {names : List (List Char)} {i j : Nat} {nm : List Char}
    (hij : i < j) (hi : names[i]? = some nm) (hj : names[j]? = some nm) :
    (names.take (i + 1)).count nm < (names.take (j + 1)).count nm := by
  have hsplit : names.take (j + 1) =
      names.take (i + 1) ++ (names.drop (i + 1)).take (j - i) := by
    rw [← List.take_add]
    congr 1
    omega
  have hg : ((names.drop (i + 1)).take (j - i))[j - i - 1]? = some nm := by
    rw [List.getElem?_take_of_lt (by omega : j - i - 1 < j - i)]
    rw [List.getElem?_drop]
    have harith : i + 1 + (j - i - 1) = j := by omega
    rw [harith]
    exact hj
  have hmid : 1 ≤ ((names.drop (i + 1)).take (j - i)).count nm :=
    List.count_pos_iff.mpr (List.getElem?_mem hg)
  rw [hsplit, List.count_append]
  have hpos := count_take_pos hi
  omega

/-- Helper: a name occurring at two positions occurs at least twice. -/
lemma two_le_count {names : List (List Char)} {i j : Nat} {nm : List Char}
    (hij : i < j) (hi : names[i]? = some nm) (hj : names[j]? = some nm) :
    2 ≤ names.count nm := by
  have h1 := count_take_pos hi
  have hg : (names.drop (i + 1))[j - i - 1]? = some nm := by
    rw [List.getElem?_drop]
    have harith : i + 1 + (j - i - 1) = j := by omega
    rw [harith]
    exact hj
  have h2 : 1 ≤ (names.drop (i + 1)).count nm :=
    List.count_pos_iff.mpr (List.getElem?_mem hg)
  have hsum : names.count nm =
      (names.take (i + 1)).count nm + (names.drop (i + 1)).count nm := by
    conv_lhs => rw [← List.take_append_drop (i + 1) names]
    rw [List.count_append]
  omega

/-- Helper: on a `#`-free discovery list, renamed entries at two distinct
positions differ. -/
lemma rename_ne_at :
    ∀ (names : List (List Char)), (∀ nm, nm ∈ names → '#' ∉ nm) →
      ∀ (i j : Nat) (nmi nmj : List Char), i < j →
        names[i]? = some nmi → names[j]? = some nmj →
        (renameNodes names)[i]? ≠ (renameNodes names)[j]? := by
  intro names hfree i j nmi nmj hij hi hj heq
  rw [renameNodes_get names i nmi hi, renameNodes_get names j nmj hj] at heq
  injection heq with heq
  have hmi : nmi ∈ names := List.getElem?_mem hi
  have hmj : nmj ∈ names := List.getElem?_mem hj
  by_cases hci : 2 ≤ names.count nmi <;> by_cases hcj : 2 ≤ names.count nmj
  · rw [if_pos hci, if_pos hcj] at heq
    obtain ⟨hnm, hdec⟩ :=
      hashSplit nmi _ _ _ (hfree nmi hmi) (hfree nmj hmj) heq
    subst hnm
    have h1 := count_take_pos hi
    have h2 := count_take_pos hj
    have hk := natDecimal_pos_inj _ _ h1 h2 hdec
    have hlt := count_take_lt hij hi hj
    omega
  · rw [if_pos hci, if_neg hcj] at heq
    exact hfree nmj hmj (heq ▸ hash_mem_suffixed nmi _)
  · rw [if_neg hci, if_pos hcj] at heq
    exact hfree nmi hmi (heq.symm ▸ hash_mem_suffixed nmj _)
  · rw [if_neg hci, if_neg hcj] at heq
    subst heq
    exact hci (two_le_count hij hi hj)

/-- C5 as amended: on every discovery-ordered name list whose initial names
are free of the `#` character (node names originate from Python function
names), `_rename_nodes` makes the names pairwise distinct, keeps the list
length, leaves every solitary name unchanged, and gives the k-th occurrence
of every duplicated name the suffix `#k` — i.e. the reverse-discovery-order
pass assigns `#N, #N-1, …, #1` and the first-discovered instance receives
`#1`. -/
theorem c5_amended_rename_unique :
    ∀ (names : List (List Char)),
      (∀ nm, nm ∈ names → '#' ∉ nm) →
      (renameNodes names).Nodup ∧
      (renameNodes names).length = names.length ∧
      ∀ (i : Nat) (nm : List Char), names[i]? = some nm →
        (names.count nm = 1 → (renameNodes names)[i]? = some nm) ∧
        (2 ≤ names.count nm →
          (renameNodes names)[i]? =
            some (nm ++ '#' :: natDecimal ((names.take (i + 1)).count nm))) := by
  intro names hfree
  have hlen : (renameNodes names).length = names.length :=
    renAux_len names (initMap names)
  refine ⟨?_, hlen, ?_⟩
  · rw [List.nodup_iff_injective_get]
    intro a b hab
    by_contra hne
    have hne2 : a.val ≠ b.val := fun h => hne (Fin.ext h)
    have key : ∀ (x y : Fin (renameNodes names).length), x.val < y.val →
        (renameNodes names).get x = (renameNodes names).get y → False := by
      intro x y hxy hgeq
      have hx : x.val < names.length := hlen ▸ x.isLt
      have hy : y.val < names.length := hlen ▸ y.isLt
      have hav : (renameNodes names)[x.val]? = (renameNodes names)[y.val]? := by
        rw [List.getElem?_eq_getElem x.isLt, List.getElem?_eq_getElem y.isLt]
        exact congrArg some hgeq
      exact rename_ne_at names hfree x.val y.val
        (names.get ⟨x.val, hx⟩) (names.get ⟨y.val, hy⟩) hxy
        (List.getElem?_eq_getElem hx) (List.getElem?_eq_getElem hy) hav
    rcases Nat.lt_or_gt_of_ne hne2 with hlt | hgt
    · exact key a b hlt hab
    · exact key b a hgt hab.symm
  · intro i nm h
    constructor
    · intro hc1
      have hg := renameNodes_get names i nm h
      rw [if_neg (by omega : ¬ 2 ≤ names.count nm)] at hg
      exact hg
    · intro hc2
      have hg := renameNodes_get names i nm h
      rw [if_pos hc2] at hg
      exact hg

/-- Witness for C5 as amended at a concrete input: discovery list
`['a', 'b', 'a']` — after renaming the names are pairwise distinct, the
solitary `b` is unchanged, and the first-discovered `a` gets `#1`. -/
theorem c5_amended_rename_unique_witness :
    (∀ nm, nm ∈ ([['a'], ['b'], ['a']] : List (List Char)) → '#' ∉ nm) ∧
    (renameNodes [['a'], ['b'], ['a']]).Nodup ∧
    (renameNodes [['a'], ['b'], ['a']]).length = 3 ∧
    (renameNodes [['a'], ['b'], ['a']])[1]? = some ['b'] ∧
    (renameNodes [['a'], ['b'], ['a']])[0]? =
      some (['a'] ++ '#' ::
        natDecimal ((([['a'], ['b'], ['a']] : List (List Char)).take 1).count ['a'])) := by
  have hfree : ∀ nm, nm ∈ ([['a'], ['b'], ['a']] : List (List Char)) →
      '#' ∉ nm := by decide
  obtain ⟨h1, h2, h3⟩ := c5_amended_rename_unique [['a'], ['b'], ['a']] hfree
  refine ⟨hfree, h1, h2, ?_, ?_⟩
  · exact (h3 1 ['b'] rfl).1 (by decide)
  · exact (h3 0 ['a'] rfl).2 (by decide)
